import Mathlib

/-!
Verification of the sphere music-library pipeline.

This file shallowly embeds the numeric core of the repository:

* the embedding module (feature standardization, PCA helpers, sphere layout,
  fallback feature synthesis, payload construction);
* the Spotify client helpers (rate-limit bookkeeping, track-source merge,
  batched audio-feature fetch, list chunking);
* the sync route's mode/limit/source-toggle selection.

JavaScript numbers are modelled as real numbers (the rational/integer
fragments, where the source only does integer and rational arithmetic, use
`ℚ`/`ℤ` so statements stay decidable).  The 32-bit hash is modelled on `ℕ`
with explicit reduction modulo `2 ^ 32`.
-/

namespace Sphere

/-! ## Data model (src/lib/types.ts, src/lib/spotify RawTrack) -/

/-- A 3-tuple of reals, the `[number, number, number]` positions. -/
structure Vec3 where
  x : ℝ
  y : ℝ
  z : ℝ

/-- TrackAudioFeatures of src/lib/types.ts: id plus 12 numeric fields. -/
structure TrackAudioFeatures where
  id : String
  danceability : ℝ
  energy : ℝ
  key : ℝ
  loudness : ℝ
  mode : ℝ
  speechiness : ℝ
  acousticness : ℝ
  instrumentalness : ℝ
  liveness : ℝ
  valence : ℝ
  tempo : ℝ
  time_signature : ℝ

/-- RawTrack of src/lib/spotify. -/
structure RawTrack where
  id : String
  name : String
  uri : Option String
  artists : List String
  albumName : String
  albumArtUrl : Option String
  externalUrl : Option String
  previewUrl : Option String
deriving DecidableEq

/-- SemanticAxes of src/lib/types.ts. -/
structure SemanticAxes where
  energy : Vec3
  tempo : Vec3
  valence : Vec3
  acousticness : Vec3

/-- SphereTrack of src/lib/types.ts. -/
structure SphereTrack where
  id : String
  name : String
  uri : Option String
  artists : List String
  albumName : String
  albumArtUrl : Option String
  externalUrl : Option String
  previewUrl : Option String
  features : TrackAudioFeatures
  vector : List ℝ
  position : Vec3

/-- SpherePayload of src/lib/types.ts (generatedAt is the timestamp string the
caller observes; the embedding passes it through unchanged). -/
structure SpherePayload where
  generatedAt : String
  trackCount : ℕ
  tracks : List SphereTrack
  semanticAxes : SemanticAxes

/-! ## src/lib/http.ts -/

/-- The chunks helper of src/lib/http.ts: slices of at most `size` elements,
walking the array from index 0 in steps of `size`.  (The JavaScript loop does
not terminate for `size = 0`; the function is only ever called with 100, and
the model returns `[]` there.) -/
def chunks (l : List α) (size : ℕ) : List (List α) :=
  if _h : size = 0 then []
  else
    match l with
    | [] => []
    | a :: t => ((a :: t).take size) :: chunks ((a :: t).drop size) size
termination_by l.length
decreasing_by
  simp only [List.length_drop, List.length_cons]
  omega

/-! ## src embedding module: vector helpers -/

noncomputable section

/-- The dot helper: pairwise products summed.  (JavaScript reduces over the
first array's indices; both call sites use equal-length vectors, where this
zip agrees with it.) -/
def dot (a b : List ℝ) : ℝ := (List.zipWith (· * ·) a b).sum

/-- Euclidean magnitude of a list vector. -/
def magnitude (v : List ℝ) : ℝ := Real.sqrt (dot v v)

/-- Euclidean magnitude of a 3-tuple position. -/
def magnitude3 (v : Vec3) : ℝ := Real.sqrt (v.x ^ 2 + v.y ^ 2 + v.z ^ 2)

/-- The normalize helper: scale to unit length, zero vector mapped to zeros. -/
def normalize (v : List ℝ) : List ℝ :=
  if magnitude v = 0 then v.map (fun _ => 0) else v.map (fun value => value / magnitude v)

/-- The transpose helper: row 0's indices become the new rows.  Out-of-range
entries of a ragged matrix read as 0 (JavaScript yields undefined there). -/
def transpose (m : List (List ℝ)) : List (List ℝ) :=
  match m with
  | [] => []
  | r0 :: _ => (List.range r0.length).map (fun c => m.map (fun row => row.getD c 0))

/-- multiplyMatrixVector: one dot product per row. -/
def multiplyMatrixVector (m : List (List ℝ)) (v : List ℝ) : List ℝ :=
  m.map (fun row => dot row v)

/-- project: dot every matrix row against every row of the transposed
component list. -/
def project (m : List (List ℝ)) (components : List (List ℝ)) : List (List ℝ) :=
  let componentsT := transpose components
  m.map (fun row => componentsT.map (fun component => dot row component))

/-- vectorToTuple3: first three entries, missing ones read as 0. -/
def vectorToTuple3 (v : List ℝ) : Vec3 :=
  ⟨v.getD 0 0, v.getD 1 0, v.getD 2 0⟩

/-! ## Embedding module: percentile, clamp, standardization -/

/-- The percentile helper: linear interpolation at fractional index
`(length - 1) * p` of an (assumed sorted) list. -/
def percentile (sorted : List ℝ) (p : ℝ) : ℝ :=
  if sorted.length = 0 then 0
  else
    let index := ((sorted.length : ℝ) - 1) * p
    let lower := ⌊index⌋
    let upper := ⌈index⌉
    if lower = upper then sorted.getD lower.toNat 0
    else
      let weight := index - (lower : ℝ)
      sorted.getD lower.toNat 0 * (1 - weight) + sorted.getD upper.toNat 0 * weight

/-- The clamp helper. -/
def clamp (value lo hi : ℝ) : ℝ := max lo (min hi value)

/-- Ascending numeric sort, modelling `[...values].sort((a, b) => a - b)`. -/
def sortAsc (l : List ℝ) : List ℝ := List.insertionSort (· ≤ ·) l

/-- One column of buildFeatureMatrix: clamp every value into the
2nd..98th-percentile band, then z-score with the sample standard deviation,
substituting 1 when that standard deviation is 0 (the `|| 1` guard). -/
def standardizeColumn (values : List ℝ) : List ℝ :=
  let sorted := sortAsc values
  let low := percentile sorted 0.02
  let high := percentile sorted 0.98
  let clamped := values.map (fun v => clamp v low high)
  let mean := clamped.sum / ((max clamped.length 1 : ℕ) : ℝ)
  let variance := (clamped.map (fun v => (v - mean) ^ 2)).sum / ((max (clamped.length - 1) 1 : ℕ) : ℝ)
  let sd := if Real.sqrt variance = 0 then 1 else Real.sqrt variance
  clamped.map (fun v => (v - mean) / sd)

/-- The eight tracked feature keys, in the FEATURE_KEYS order. -/
inductive FeatureKey
  | energy
  | tempo
  | valence
  | danceability
  | acousticness
  | instrumentalness
  | speechiness
  | liveness
deriving DecidableEq

/-- FEATURE_KEYS of the embedding module. -/
def FEATURE_KEYS : List FeatureKey :=
  [.energy, .tempo, .valence, .danceability, .acousticness, .instrumentalness,
   .speechiness, .liveness]

/-- Raw column value per key; tempo is pre-divided by 220 as in
`key === "tempo" ? f.tempo / 220 : f[key]`. -/
def featureValue (k : FeatureKey) (f : TrackAudioFeatures) : ℝ :=
  match k with
  | .energy => f.energy
  | .tempo => f.tempo / 220
  | .valence => f.valence
  | .danceability => f.danceability
  | .acousticness => f.acousticness
  | .instrumentalness => f.instrumentalness
  | .speechiness => f.speechiness
  | .liveness => f.liveness

/-- The eight standardized columns of buildFeatureMatrix. -/
def featureColumns (features : List TrackAudioFeatures) : List (List ℝ) :=
  FEATURE_KEYS.map (fun key => standardizeColumn (features.map (featureValue key)))

/-- buildFeatureMatrix: rows re-assembled from the standardized columns,
row order matching the input order. -/
def buildFeatureMatrix (features : List TrackAudioFeatures) : List (List ℝ) :=
  let columns := featureColumns features
  (List.range features.length).map (fun rowIndex => columns.map (fun column => column.getD rowIndex 0))

/-! ## Embedding module: positions -/

/-- simplePositionFromEnergyValence: place a track on the upper unit
hemisphere from its valence (x) and energy (y), pulling the planar radius
back to 0.96 when it exceeds it. -/
def simplePositionFromEnergyValence (features : TrackAudioFeatures) : Vec3 :=
  let x0 := (features.valence * 2 - 1) * 0.92
  let y0 := (features.energy * 2 - 1) * 0.92
  let radius := Real.sqrt (x0 * x0 + y0 * y0)
  let scale := if radius > 0.96 then 0.96 / radius else 1
  let x := x0 * scale
  let y := y0 * scale
  let z := Real.sqrt (max 0 (1 - x * x - y * y))
  ⟨x, y, z⟩

/-- seededUnit: fractional part of `sin seed * 10000`. -/
def seededUnit (seed : ℝ) : ℝ :=
  Real.sin seed * 10000 - (⌊Real.sin seed * 10000⌋ : ℤ)

/-- UTF code points of a string (the source hashes UTF-16 units; they agree
on the basic multilingual plane, and nothing below depends on the exact
numeric values). -/
def charCodes (s : String) : List ℕ := s.data.map Char.toNat

/-- One step of the 32-bit FNV-1a-style hash: xor the code unit in, multiply
by 16777619, truncated to 32 bits (Math.imul followed by the final
unsigned reinterpretation). -/
def hashStep (h c : ℕ) : ℕ := ((h ^^^ c) * 16777619) % 4294967296

/-- hashString of the embedding module. -/
def hashString (input : String) : ℕ :=
  (charCodes input).foldl hashStep 2166136261

/-- fallbackFeaturesFromTrack: deterministic pseudo-random features seeded
from the hash of id, name and the comma-joined artist list. -/
def fallbackFeaturesFromTrack (track : RawTrack) : TrackAudioFeatures :=
  let base : ℕ := hashString (track.id ++ ":" ++ track.name ++ ":" ++ String.intercalate "," track.artists)
  { id := track.id
    danceability := seededUnit ((base : ℝ) + 11)
    energy := seededUnit ((base : ℝ) + 23)
    key := (⌊seededUnit ((base : ℝ) + 37) * 12⌋ : ℤ)
    loudness := -60 + seededUnit ((base : ℝ) + 53) * 60
    mode := if seededUnit ((base : ℝ) + 71) > 0.5 then 1 else 0
    speechiness := seededUnit ((base : ℝ) + 89)
    acousticness := seededUnit ((base : ℝ) + 101)
    instrumentalness := seededUnit ((base : ℝ) + 131)
    liveness := seededUnit ((base : ℝ) + 149)
    valence := seededUnit ((base : ℝ) + 167)
    tempo := 70 + seededUnit ((base : ℝ) + 191) * 110
    time_signature := 4 }

/-- fibonacciSpherePoint: the evenly distributed fallback point for index
`index` of `total` points (total floored at 1). -/
def fibonacciSpherePoint (index total : ℕ) : Vec3 :=
  let n : ℕ := max total 1
  let i : ℝ := (index : ℝ) + 0.5
  let phi := Real.arccos (1 - 2 * i / (n : ℝ))
  let theta := Real.pi * (1 + Real.sqrt 5) * i
  ⟨Real.cos theta * Real.sin phi, Real.sin theta * Real.sin phi, Real.cos phi⟩

/-- The claimed closed form of the Fibonacci-sphere fallback, written from the
spec sentence (n is the total itself, with no floor at 1). -/
def fibonacciSpherePointSpec (index total : ℕ) : Vec3 :=
  let i : ℝ := (index : ℝ) + 0.5
  let phi := Real.arccos (1 - 2 * i / (total : ℝ))
  let theta := Real.pi * (1 + Real.sqrt 5) * i
  ⟨Real.cos theta * Real.sin phi, Real.sin theta * Real.sin phi, Real.cos phi⟩

/-- ensureVisiblePositions: drop the whole layout onto the Fibonacci sphere
when over 30 percent of the raw positions collapse below 1e-6; otherwise
normalize each point (individually degenerate points get their Fibonacci
substitute) and re-check the mean spread around the centroid against 0.22. -/
def ensureVisiblePositions (rawPositions : List (List ℝ)) : List Vec3 :=
  let zeroCount := rawPositions.countP (fun pos => decide (magnitude pos < 1e-6))
  let mostlyCollapsed := (zeroCount : ℝ) > (rawPositions.length : ℝ) * 0.3
  if mostlyCollapsed then
    (List.range rawPositions.length).map (fun index => fibonacciSpherePoint index rawPositions.length)
  else
    let normalized := (List.range rawPositions.length).map (fun index =>
      let pos := rawPositions.getD index []
      if magnitude pos < 1e-6 then fibonacciSpherePoint index rawPositions.length
      else vectorToTuple3 (normalize pos))
    let centroid : Vec3 :=
      ⟨(normalized.map Vec3.x).sum / ((max normalized.length 1 : ℕ) : ℝ),
       (normalized.map Vec3.y).sum / ((max normalized.length 1 : ℕ) : ℝ),
       (normalized.map Vec3.z).sum / ((max normalized.length 1 : ℕ) : ℝ)⟩
    let avgDist := (normalized.map (fun p =>
      Real.sqrt ((p.x - centroid.x) ^ 2 + (p.y - centroid.y) ^ 2 + (p.z - centroid.z) ^ 2))).sum /
      ((max normalized.length 1 : ℕ) : ℝ)
    if avgDist < 0.22 then
      (List.range normalized.length).map (fun index => fibonacciSpherePoint index normalized.length)
    else normalized

/-! ## Embedding module: createSpherePayload -/

/-- Placeholder values backing the (never taken) out-of-range array reads in
the indexed map below. -/
def defaultRawTrack : RawTrack :=
  { id := "", name := "", uri := none, artists := [], albumName := "",
    albumArtUrl := none, externalUrl := none, previewUrl := none }

/-- Placeholder features for out-of-range reads (never taken). -/
def defaultFeatures : TrackAudioFeatures :=
  { id := "", danceability := 0, energy := 0, key := 0, loudness := 0, mode := 0,
    speechiness := 0, acousticness := 0, instrumentalness := 0, liveness := 0,
    valence := 0, tempo := 0, time_signature := 0 }

/-- The merge step of createSpherePayload: pair every raw track with its
fetched or fallback features.  (The source's `.filter(Boolean)` keeps every
element, each mapped value being an object.)  The featureMap argument is the
`Map.get` interface of the audio-feature map. -/
def mergedOf (rawTracks : List RawTrack)
    (featureMap : String → Option TrackAudioFeatures) : List (RawTrack × TrackAudioFeatures) :=
  rawTracks.map (fun track => (track, (featureMap track.id).getD (fallbackFeaturesFromTrack track)))

/-- One SphereTrack of the payload, assembled from the merged pair at
`index` together with that row of the feature matrix and that position. -/
def payloadTrackAt (merged : List (RawTrack × TrackAudioFeatures))
    (featureMatrix : List (List ℝ)) (positions : List Vec3) (index : ℕ) : SphereTrack :=
  let item := merged.getD index (defaultRawTrack, defaultFeatures)
  { id := item.1.id, name := item.1.name, uri := item.1.uri,
    artists := item.1.artists, albumName := item.1.albumName,
    albumArtUrl := item.1.albumArtUrl, externalUrl := item.1.externalUrl,
    previewUrl := item.1.previewUrl, features := item.2,
    vector := featureMatrix.getD index [],
    position := positions.getD index ⟨0, 0, 0⟩ }

/-- The tracks list of a non-empty payload: merged pairs indexed against the
standardized feature matrix and the per-track positions. -/
def payloadTracks (rawTracks : List RawTrack)
    (featureMap : String → Option TrackAudioFeatures) : List SphereTrack :=
  (List.range (mergedOf rawTracks featureMap).length).map
    (payloadTrackAt (mergedOf rawTracks featureMap)
      (buildFeatureMatrix ((mergedOf rawTracks featureMap).map (fun item => item.2)))
      ((mergedOf rawTracks featureMap).map (fun item => simplePositionFromEnergyValence item.2)))

/-- The semantic axes of the empty payload. -/
def emptyAxes : SemanticAxes :=
  { energy := ⟨0, 1, 0⟩, tempo := ⟨1, 0, 0⟩, valence := ⟨0, 0, 1⟩,
    acousticness := ⟨-1, 0, 0⟩ }

/-- The hard-coded semantic axes of a non-empty payload. -/
def nonEmptyAxes : SemanticAxes :=
  { energy := ⟨0, 1, 0⟩, tempo := ⟨0, 0, 1⟩, valence := ⟨1, 0, 0⟩,
    acousticness := ⟨-1, 0, 0⟩ }

/-- createSpherePayload: the empty payload for an empty merge, otherwise the
assembled track list with the hard-coded axes.  `now` is the generation
timestamp string. -/
def createSpherePayload (rawTracks : List RawTrack)
    (featureMap : String → Option TrackAudioFeatures) (now : String) : SpherePayload :=
  if (mergedOf rawTracks featureMap).length = 0 then
    { generatedAt := now, trackCount := 0, tracks := [], semanticAxes := emptyAxes }
  else
    { generatedAt := now, trackCount := (payloadTracks rawTracks featureMap).length,
      tracks := payloadTracks rawTracks featureMap, semanticAxes := nonEmptyAxes }

end

/-! ## src/lib/spotify: shared rate-limit state (part of fetchWithRetry)

Times are integer milliseconds; `rateLimitedUntil` is the shared
`spotifyRateLimitedUntil` timestamp and `now` the current `Date.now()`.
The retry-after header value is a rational number of seconds. -/

/-- The retry-after header as the client reads it: absent (or empty), present
but not a finite non-negative number, or a finite number of seconds. -/
inductive RetryAfterHeader
  | absent
  | malformed
  | secs (q : ℚ)

/-- clampRateLimitDelayMs: non-positive (or non-finite) values fall back to
the 20s default, everything else is ceiled and clamped into [1000, 180000]. -/
def clampRateLimitDelayMs (value : ℚ) : ℤ :=
  if value ≤ 0 then 20000 else max 1000 (min 180000 ⌈value⌉)

/-- rateLimitDelayMs: the cool-down a 429 response asks for.  A finite
non-negative retry-after of `q` seconds is converted to milliseconds and
clamped; anything else yields the 20s default. -/
def rateLimitDelayMs : RetryAfterHeader → ℤ
  | .secs q => if 0 ≤ q then clampRateLimitDelayMs (q * 1000) else 20000
  | _ => 20000

/-- normalizeRateLimitRemainingMs: the currently pending cool-down, clamped
to at most 180000 and floored at 0. -/
def normalizeRateLimitRemainingMs (rateLimitedUntil now : ℤ) : ℤ :=
  if rateLimitedUntil - now ≤ 0 then 0 else min 180000 (rateLimitedUntil - now)

/-- The 429 branch of fetchWithRetry: the new shared `spotifyRateLimitedUntil`
after a 429 response carrying `header` arrives at time `now`. -/
def applyRateLimit429 (rateLimitedUntil now : ℤ) (header : RetryAfterHeader) : ℤ :=
  now + max (normalizeRateLimitRemainingMs rateLimitedUntil now) (rateLimitDelayMs header)

/-! ## src sync route: mode, limit and source toggles -/

/-- The result of coercing the request body's `limit` with `Number(...)`:
either a finite rational or NaN/infinity. -/
inductive JsNumber
  | fin (q : ℚ)
  | nanOrInf

/-- The fetch options the sync route passes to fetchUserTracks. -/
structure SyncOptions where
  modeIsFull : Bool
  limit : ℚ
  includeLikedSongs : Bool
  includeSavedAlbums : Bool
  includeRecentlyPlayed : Bool
deriving DecidableEq

/-- The sync route's option selection: any mode other than "full" is "quick";
the default limit is 180 for full and 20 for quick; a finite caller-supplied
limit is clamped into [20, 1000] while a non-finite one falls back to the
default; quick mode keeps liked songs only, full mode enables all three
sources. -/
def syncOptionsOf (modeField : Option String) (limitField : Option JsNumber) : SyncOptions :=
  let mode : String := if modeField = some "full" then "full" else "quick"
  let defaultLimit : ℚ := if mode = "full" then 180 else 20
  let requestedLimit : JsNumber := limitField.getD (.fin defaultLimit)
  let limit : ℚ :=
    match requestedLimit with
    | .fin q => max 20 (min 1000 q)
    | .nanOrInf => defaultLimit
  let quickMode := mode = "quick"
  { modeIsFull := mode = "full"
    limit := limit
    includeLikedSongs := if quickMode then true else true
    includeSavedAlbums := mode = "full"
    includeRecentlyPlayed := if quickMode then false else true }

/-! ## src/lib/spotify: fetchUserTracks merge

The three paginated walks are modelled by the item lists they return; the
merge into the insertion-ordered `Map` keyed by track id is what the claims
are about.  `TrackObj` mirrors SpotifyTrackObject after the response is
parsed: an empty id stands for a missing/falsy `track.id`. -/

/-- SpotifyTrackObject as the merge sees it. -/
structure TrackObj where
  id : String
  name : String
  uri : Option String
  artists : List String
  albumName : Option String
  albumImageUrls : List String
  externalUrl : Option String
  previewUrl : Option String
deriving DecidableEq

/-- toRawTrack: null for a falsy id, otherwise the flattened track record. -/
def toRawTrack (track : TrackObj) : Option RawTrack :=
  if track.id = "" then none
  else
    some
      { id := track.id, name := track.name, uri := track.uri,
        artists := track.artists, albumName := track.albumName.getD "",
        albumArtUrl := track.albumImageUrls.head?,
        externalUrl := track.externalUrl, previewUrl := track.previewUrl }

/-- JavaScript `Map.set` on an insertion-ordered association list: an existing
key keeps its position and gets the new value, a new key is appended. -/
def mset (m : List (String × α)) (k : String) (v : α) : List (String × α) :=
  if k ∈ m.map Prod.fst then
    m.map (fun p => if p.1 = k then (k, v) else p)
  else m ++ [(k, v)]

/-- First-match lookup in an association list (the `Map.get` view). -/
def mlookup (k : String) : List (String × α) → Option α
  | [] => none
  | (k', v) :: t => if k' = k then some v else mlookup k t

/-- One source's pass over the track map: convert each item and `Map.set` it
under its id (items with a falsy id are skipped). -/
def insertObjs (m : List (String × RawTrack)) (l : List TrackObj) : List (String × RawTrack) :=
  l.foldl (fun m t =>
    match toRawTrack t with
    | none => m
    | some raw => mset m raw.id raw) m

/-- The track map fetchUserTracks builds: liked items first, then recently
played, then every saved album's tracks. -/
def mergeMap (liked recent : List TrackObj) (savedAlbums : List (List TrackObj)) :
    List (String × RawTrack) :=
  savedAlbums.foldl (fun m album => insertObjs m album) (insertObjs (insertObjs [] liked) recent)

/-- The list fetchUserTracks returns: the map's values in insertion order,
truncated to `limit`. -/
def fetchUserTracksMerged (liked recent : List TrackObj) (savedAlbums : List (List TrackObj))
    (limit : ℕ) : List RawTrack :=
  ((mergeMap liked recent savedAlbums).map Prod.snd).take limit

/-- The ids a source contributes (items surviving toRawTrack). -/
def rawIds (l : List TrackObj) : List String :=
  (l.filterMap toRawTrack).map RawTrack.id

/-- The last raw track with id `tid` a source writes to the map. -/
def lastWrite (tid : String) (l : List TrackObj) : Option RawTrack :=
  l.foldl (fun acc t =>
    match toRawTrack t with
    | some raw => if raw.id = tid then some raw else acc
    | none => acc) none

/-! ## src/lib/spotify: fetchAudioFeatures -/

/-- What one batched audio-features request can yield: a parsed
`audio_features` array, a thrown HTTP 403, or any other failure. -/
inductive ApiResult
  | ok (feats : List (Option TrackAudioFeatures))
  | http403
  | httpErr

/-- Fold one (possibly null) feature record into the accumulated map,
skipping nulls and records with a falsy id. -/
def insertFeature (m : List (String × TrackAudioFeatures)) (f : Option TrackAudioFeatures) :
    List (String × TrackAudioFeatures) :=
  match f with
  | none => m
  | some x => if x.id = "" then m else mset m x.id x

/-- The chunk loop of fetchAudioFeatures: each chunk is fetched in turn; an
ok response is folded into the map, a 403 returns the map accumulated so far,
anything else propagates as an error. -/
def goFeatures (api : List String → ApiResult) :
    List (String × TrackAudioFeatures) → List (List String) →
    Except Unit (List (String × TrackAudioFeatures))
  | acc, [] => .ok acc
  | acc, c :: cs =>
    match api c with
    | .ok feats => goFeatures api (feats.foldl insertFeature acc) cs
    | .http403 => .ok acc
    | .httpErr => .error ()

/-- fetchAudioFeatures: chunk the ids 100 at a time and run the loop with an
empty accumulator.  `api` is the oracle for one batched request. -/
def fetchAudioFeatures (ids : List String) (api : List String → ApiResult) :
    Except Unit (List (String × TrackAudioFeatures)) :=
  goFeatures api [] (chunks ids 100)

/-! ## Concrete inputs for witnesses and counterexamples -/

/-- A concrete raw track. -/
def wTrackA : RawTrack :=
  { id := "t1", name := "song", uri := none, artists := ["artist"],
    albumName := "album-a", albumArtUrl := none, externalUrl := none,
    previewUrl := none }

/-- The same identity as wTrackA with different ancillary metadata. -/
def wTrackB : RawTrack :=
  { id := "t1", name := "song", uri := some "spotify:track:t1", artists := ["artist"],
    albumName := "album-b", albumArtUrl := some "art", externalUrl := none,
    previewUrl := some "preview" }

/-- A second distinct raw track. -/
def wTrackC : RawTrack :=
  { id := "t2", name := "other", uri := none, artists := [],
    albumName := "", albumArtUrl := none, externalUrl := none,
    previewUrl := none }

/-- Audio features with every numeric field 1/2. -/
noncomputable def halfFeatures : TrackAudioFeatures :=
  { id := "h", danceability := 1/2, energy := 1/2, key := 1/2, loudness := 1/2,
    mode := 1/2, speechiness := 1/2, acousticness := 1/2, instrumentalness := 1/2,
    liveness := 1/2, valence := 1/2, tempo := 1/2, time_signature := 1/2 }

/-- A feature map answering every id with halfFeatures. -/
noncomputable def constHalfMap : String → Option TrackAudioFeatures :=
  fun _ => some halfFeatures

/-- A liked-source track object with id "a". -/
def objA : TrackObj :=
  { id := "a", name := "liked-a", uri := none, artists := [], albumName := none,
    albumImageUrls := [], externalUrl := none, previewUrl := none }

/-- A liked-source track object with id "b". -/
def objB : TrackObj :=
  { id := "b", name := "liked-b", uri := none, artists := [], albumName := none,
    albumImageUrls := [], externalUrl := none, previewUrl := none }

/-- A recently-played track object with id "b" and different metadata. -/
def objBRecent : TrackObj :=
  { id := "b", name := "recent-b", uri := some "spotify:track:b", artists := [],
    albumName := none, albumImageUrls := [], externalUrl := none, previewUrl := none }

/-! ## C10: the empty-library payload -/

/-- C10: for the empty track list, createSpherePayload returns a payload with
trackCount 0, no tracks, and the four canonical semantic axes energy [0,1,0],
tempo [1,0,0], valence [0,0,1], acousticness [-1,0,0], each of unit
Euclidean magnitude. -/
theorem createSpherePayload_empty_payload (featureMap : String → Option TrackAudioFeatures)
    (now : String) :
    (createSpherePayload [] featureMap now).trackCount = 0
    ∧ (createSpherePayload [] featureMap now).tracks = []
    ∧ (createSpherePayload [] featureMap now).semanticAxes.energy = ⟨0, 1, 0⟩
    ∧ (createSpherePayload [] featureMap now).semanticAxes.tempo = ⟨1, 0, 0⟩
    ∧ (createSpherePayload [] featureMap now).semanticAxes.valence = ⟨0, 0, 1⟩
    ∧ (createSpherePayload [] featureMap now).semanticAxes.acousticness = ⟨-1, 0, 0⟩
    ∧ magnitude3 (createSpherePayload [] featureMap now).semanticAxes.energy = 1
    ∧ magnitude3 (createSpherePayload [] featureMap now).semanticAxes.tempo = 1
    ∧ magnitude3 (createSpherePayload [] featureMap now).semanticAxes.valence = 1
    ∧ magnitude3 (createSpherePayload [] featureMap now).semanticAxes.acousticness = 1 := by
  refine ⟨rfl, rfl, rfl, rfl, rfl, rfl, ?_, ?_, ?_, ?_⟩
  · show magnitude3 ⟨0, 1, 0⟩ = 1
    simp only [magnitude3]
    norm_num
  · show magnitude3 ⟨1, 0, 0⟩ = 1
    simp only [magnitude3]
    norm_num
  · show magnitude3 ⟨0, 0, 1⟩ = 1
    simp only [magnitude3]
    norm_num
  · show magnitude3 ⟨-1, 0, 0⟩ = 1
    simp only [magnitude3]
    norm_num

/-! ## C9: the Fibonacci-sphere fallback point -/

/-- C9: for a positive total, the code's fibonacciSpherePoint agrees exactly
with the claimed closed form phi = acos(1 - 2(i+0.5)/n),
theta = pi (1 + sqrt 5) (i+0.5), position (cos theta sin phi,
sin theta sin phi, cos phi). -/
theorem fibonacciSpherePoint_eq_spec (index total : ℕ) (h : 1 ≤ total) :
    fibonacciSpherePoint index total = fibonacciSpherePointSpec index total := by
  unfold fibonacciSpherePoint fibonacciSpherePointSpec
  rw [Nat.max_eq_left h]

/-- Witness for C9 at index 0 of 3 points. -/
theorem fibonacciSpherePoint_eq_spec_witness :
    fibonacciSpherePoint 0 3 = fibonacciSpherePointSpec 0 3 :=
  fibonacciSpherePoint_eq_spec 0 3 (by decide)

/-! ## C3: sync mode, limit and source toggles -/

/-- C3 counterexample: in quick mode the sync route disables the
recently-played source (the claim says quick mode enables it). -/
theorem syncQuick_disables_recentlyPlayed :
    (syncOptionsOf (some "quick") none).includeRecentlyPlayed = false := by
  rfl

/-- C3 as amended: quick mode defaults the limit to 20 and full mode to 180;
a finite caller-supplied limit is clamped into [20, 1000]; full mode enables
liked songs, saved albums and recently played, while quick mode enables only
liked songs, skipping both saved albums and recently played. -/
theorem syncOptionsOf_spec (modeField : Option String) (limitField : Option JsNumber) (q : ℚ) :
    (syncOptionsOf (some "quick") none).limit = 20
    ∧ (syncOptionsOf (some "full") none).limit = 180
    ∧ (syncOptionsOf modeField none).limit = (if modeField = some "full" then 180 else 20)
    ∧ (syncOptionsOf modeField (some (.fin q))).limit = max 20 (min 1000 q)
    ∧ 20 ≤ (syncOptionsOf modeField (some (.fin q))).limit
    ∧ (syncOptionsOf modeField (some (.fin q))).limit ≤ 1000
    ∧ (syncOptionsOf modeField (some .nanOrInf)).limit = (if modeField = some "full" then 180 else 20)
    ∧ (syncOptionsOf (some "quick") limitField).includeLikedSongs = true
    ∧ (syncOptionsOf (some "quick") limitField).includeSavedAlbums = false
    ∧ (syncOptionsOf (some "quick") limitField).includeRecentlyPlayed = false
    ∧ (syncOptionsOf (some "full") limitField).includeLikedSongs = true
    ∧ (syncOptionsOf (some "full") limitField).includeSavedAlbums = true
    ∧ (syncOptionsOf (some "full") limitField).includeRecentlyPlayed = true := by
  have hfin : (syncOptionsOf modeField (some (.fin q))).limit = max 20 (min 1000 q) := rfl
  refine ⟨by decide, by decide, ?_, hfin, ?_, ?_, ?_, rfl, rfl, rfl, rfl, rfl, rfl⟩
  · by_cases hm : modeField = some "full" <;> simp [syncOptionsOf, hm] <;> decide
  · rw [hfin]
    exact le_max_left _ _
  · rw [hfin]
    exact max_le (by norm_num) (min_le_left _ _)
  · by_cases hm : modeField = some "full" <;> simp [syncOptionsOf, hm]

/-! ## C6: the fallback feature synthesizer is deterministic -/

/-- C6: fallbackFeaturesFromTrack depends only on the track's id, name and
artist list: two raw tracks agreeing on those three fields receive identical
audio features, whatever their other fields are. -/
theorem fallbackFeatures_deterministic (t1 t2 : RawTrack)
    (hid : t1.id = t2.id) (hname : t1.name = t2.name)
    (hartists : t1.artists = t2.artists) :
    fallbackFeaturesFromTrack t1 = fallbackFeaturesFromTrack t2 := by
  unfold fallbackFeaturesFromTrack
  rw [hid, hname, hartists]

/-- Witness for C6: two tracks sharing id, name and artists but differing in
uri, album name, art and preview get the same synthesized features. -/
theorem fallbackFeatures_deterministic_witness :
    fallbackFeaturesFromTrack wTrackA = fallbackFeaturesFromTrack wTrackB :=
  fallbackFeatures_deterministic wTrackA wTrackB rfl rfl rfl

/-! ## C4: the 429 cool-down update -/

/-- The requested cool-down is always within [1000, 180000] milliseconds. -/
lemma rateLimitDelayMs_bounds (header : RetryAfterHeader) :
    1000 ≤ rateLimitDelayMs header ∧ rateLimitDelayMs header ≤ 180000 := by
  have hc : ∀ v : ℚ, 1000 ≤ clampRateLimitDelayMs v ∧ clampRateLimitDelayMs v ≤ 180000 := by
    intro v
    unfold clampRateLimitDelayMs
    by_cases hv : v ≤ 0
    · simp [hv]
    · rw [if_neg hv]
      exact ⟨le_max_left _ _, max_le (by norm_num) (min_le_left _ _)⟩
  cases header with
  | absent => exact ⟨by norm_num [rateLimitDelayMs], by norm_num [rateLimitDelayMs]⟩
  | malformed => exact ⟨by norm_num [rateLimitDelayMs], by norm_num [rateLimitDelayMs]⟩
  | secs q =>
    by_cases hq : 0 ≤ q
    · simpa [rateLimitDelayMs, hq] using hc (q * 1000)
    · simp [rateLimitDelayMs, hq]

/-- C4: when a 429 arrives at time `now` with pending cool-down
`rateLimitedUntil - now` (within its 0..180000 invariant), the shared
cool-down becomes the maximum of the pending cool-down and the requested
delay, so it is at least the retry-after hint and never shrinks; an in-range
retry-after of q seconds (1 <= q <= 180) requests exactly ceil(q * 1000)
milliseconds, an absent or malformed header requests the 20s default, and
every requested delay lies in [1000, 180000]. -/
theorem applyRateLimit429_spec (rateLimitedUntil now : ℤ) (q : ℚ)
    (hq1 : 1 ≤ q) (hq2 : q ≤ 180)
    (hpend0 : 0 ≤ rateLimitedUntil - now) (hpend1 : rateLimitedUntil - now ≤ 180000) :
    rateLimitDelayMs (.secs q) = ⌈q * 1000⌉
    ∧ rateLimitDelayMs .absent = 20000
    ∧ rateLimitDelayMs .malformed = 20000
    ∧ (∀ header, 1000 ≤ rateLimitDelayMs header ∧ rateLimitDelayMs header ≤ 180000)
    ∧ (∀ header, applyRateLimit429 rateLimitedUntil now header - now
        = max (rateLimitedUntil - now) (rateLimitDelayMs header))
    ∧ (∀ header, rateLimitDelayMs header ≤ applyRateLimit429 rateLimitedUntil now header - now)
    ∧ (∀ header, rateLimitedUntil - now ≤ applyRateLimit429 rateLimitedUntil now header - now) := by
  have hnorm : normalizeRateLimitRemainingMs rateLimitedUntil now = rateLimitedUntil - now := by
    unfold normalizeRateLimitRemainingMs
    by_cases h0 : rateLimitedUntil - now ≤ 0
    · rw [if_pos h0]
      omega
    · rw [if_neg h0]
      omega
  have happly : ∀ header, applyRateLimit429 rateLimitedUntil now header - now
      = max (rateLimitedUntil - now) (rateLimitDelayMs header) := by
    intro header
    unfold applyRateLimit429
    rw [hnorm]
    ring
  have hsecs : rateLimitDelayMs (.secs q) = ⌈q * 1000⌉ := by
    have hq0 : (0:ℚ) ≤ q := le_trans (by norm_num) hq1
    have hms1 : (1000:ℚ) ≤ q * 1000 := by nlinarith
    have hms2 : q * 1000 ≤ 180000 := by nlinarith
    have hceil1 : (1000:ℤ) ≤ ⌈q * 1000⌉ := by
      have := Int.ceil_le_ceil hms1
      simpa using this
    have hceil2 : ⌈q * 1000⌉ ≤ (180000:ℤ) := Int.ceil_le.mpr (by exact_mod_cast hms2)
    have hpos : ¬ q * 1000 ≤ 0 := by nlinarith
    show (if 0 ≤ q then clampRateLimitDelayMs (q * 1000) else 20000) = ⌈q * 1000⌉
    rw [if_pos hq0]
    unfold clampRateLimitDelayMs
    rw [if_neg hpos, min_eq_right hceil2, max_eq_right hceil1]
  refine ⟨hsecs, rfl, rfl, rateLimitDelayMs_bounds, happly, ?_, ?_⟩
  · intro header
    rw [happly header]
    exact le_max_right _ _
  · intro header
    rw [happly header]
    exact le_max_left _ _

/-- Witness for C4: a 429 with retry-after 5 seconds at time 0, with 3
seconds of cool-down already pending, requests exactly 5000 ms. -/
theorem applyRateLimit429_spec_witness :
    rateLimitDelayMs (.secs 5) = ⌈(5:ℚ) * 1000⌉ :=
  (applyRateLimit429_spec 3000 0 5 (by norm_num) (by norm_num) (by norm_num)
    (by norm_num)).1

/-! ## C1: every emitted position has unit magnitude -/

/-- Lifting a planar point with x^2 + y^2 at most 1 onto the hemisphere
yields a point of magnitude exactly 1. -/
lemma hemi_unit (x y : ℝ) (h : x * x + y * y ≤ 1) :
    Real.sqrt (x ^ 2 + y ^ 2 + Real.sqrt (max 0 (1 - x * x - y * y)) ^ 2) = 1 := by
  have h0 : (0:ℝ) ≤ 1 - x * x - y * y := by linarith
  rw [max_eq_right h0, Real.sq_sqrt h0]
  have hsum : x ^ 2 + y ^ 2 + (1 - x * x - y * y) = 1 := by ring
  rw [hsum, Real.sqrt_one]

/-- Every position simplePositionFromEnergyValence emits has Euclidean
magnitude exactly 1: the planar radius is capped at 0.96, so the z lift
closes the vector to the unit sphere. -/
lemma simplePosition_unit (f : TrackAudioFeatures) :
    magnitude3 (simplePositionFromEnergyValence f) = 1 := by
  set x0 : ℝ := (f.valence * 2 - 1) * 0.92 with hx0
  set y0 : ℝ := (f.energy * 2 - 1) * 0.92 with hy0
  have hsumnn : (0:ℝ) ≤ x0 * x0 + y0 * y0 := by nlinarith [sq_nonneg x0, sq_nonneg y0]
  have hr2 : Real.sqrt (x0 * x0 + y0 * y0) ^ 2 = x0 * x0 + y0 * y0 := Real.sq_sqrt hsumnn
  by_cases hgt : Real.sqrt (x0 * x0 + y0 * y0) > 0.96
  · have hrpos : (0:ℝ) < Real.sqrt (x0 * x0 + y0 * y0) := lt_trans (by norm_num) hgt
    have hrne : Real.sqrt (x0 * x0 + y0 * y0) ≠ 0 := ne_of_gt hrpos
    have hxy : x0 * (0.96 / Real.sqrt (x0 * x0 + y0 * y0)) * (x0 * (0.96 / Real.sqrt (x0 * x0 + y0 * y0)))
        + y0 * (0.96 / Real.sqrt (x0 * x0 + y0 * y0)) * (y0 * (0.96 / Real.sqrt (x0 * x0 + y0 * y0)))
        = 0.96 ^ 2 := by
      have hexp : x0 * (0.96 / Real.sqrt (x0 * x0 + y0 * y0)) * (x0 * (0.96 / Real.sqrt (x0 * x0 + y0 * y0)))
          + y0 * (0.96 / Real.sqrt (x0 * x0 + y0 * y0)) * (y0 * (0.96 / Real.sqrt (x0 * x0 + y0 * y0)))
          = (x0 * x0 + y0 * y0) * (0.96 / Real.sqrt (x0 * x0 + y0 * y0)) ^ 2 := by ring
      have hSne : x0 * x0 + y0 * y0 ≠ 0 := by
        rw [← hr2]
        exact pow_ne_zero 2 hrne
      rw [hexp, ← hr2, div_pow]
      field_simp
    have hle : x0 * (0.96 / Real.sqrt (x0 * x0 + y0 * y0)) * (x0 * (0.96 / Real.sqrt (x0 * x0 + y0 * y0)))
        + y0 * (0.96 / Real.sqrt (x0 * x0 + y0 * y0)) * (y0 * (0.96 / Real.sqrt (x0 * x0 + y0 * y0))) ≤ 1 := by
      rw [hxy]
      norm_num
    have := hemi_unit (x0 * (0.96 / Real.sqrt (x0 * x0 + y0 * y0)))
      (y0 * (0.96 / Real.sqrt (x0 * x0 + y0 * y0))) hle
    simpa [simplePositionFromEnergyValence, magnitude3, ← hx0, ← hy0, if_pos hgt] using this
  · have hr96 : Real.sqrt (x0 * x0 + y0 * y0) ≤ 0.96 := not_lt.mp hgt
    have hle : x0 * 1 * (x0 * 1) + y0 * 1 * (y0 * 1) ≤ 1 := by
      have : x0 * x0 + y0 * y0 ≤ 0.96 ^ 2 := by
        rw [← hr2]
        have := pow_le_pow_left (Real.sqrt_nonneg (x0 * x0 + y0 * y0)) hr96 2
        simpa using this
      nlinarith
    have := hemi_unit (x0 * 1) (y0 * 1) hle
    simpa [simplePositionFromEnergyValence, magnitude3, ← hx0, ← hy0, if_neg hgt] using this

/-- Reading every index of a list back with a default reproduces the list. -/
lemma range_map_getD (l : List α) (d : α) :
    (List.range l.length).map (fun i => l.getD i d) = l := by
  apply List.ext_getElem
  · simp
  · intro i h1 h2
    simp only [List.getElem_map, List.getElem_range, List.getD_eq_getElem?_getD,
      List.getElem?_eq_getElem h2, Option.getD_some]

/-- The tracks of a non-empty payload are payloadTracks. -/
lemma createSpherePayload_tracks (rawTracks : List RawTrack)
    (featureMap : String → Option TrackAudioFeatures) (now : String)
    (hne : rawTracks ≠ []) :
    (createSpherePayload rawTracks featureMap now).tracks = payloadTracks rawTracks featureMap := by
  have hlen : (mergedOf rawTracks featureMap).length ≠ 0 := by
    simpa [mergedOf, List.length_eq_zero] using hne
  unfold createSpherePayload
  rw [if_neg hlen]

/-- The positions of payloadTracks are exactly the
simplePositionFromEnergyValence images of the merged feature records. -/
lemma payloadTracks_positions (rawTracks : List RawTrack)
    (featureMap : String → Option TrackAudioFeatures) :
    (payloadTracks rawTracks featureMap).map SphereTrack.position
      = (mergedOf rawTracks featureMap).map (fun item => simplePositionFromEnergyValence item.2) := by
  apply List.ext_getElem
  · simp [payloadTracks]
  · intro n h1 h2
    simp only [payloadTracks, List.getElem_map, List.getElem_range]
    show ((mergedOf rawTracks featureMap).map
        (fun item => simplePositionFromEnergyValence item.2)).getD n ⟨0, 0, 0⟩ = _
    rw [List.getD_eq_getElem?_getD, List.getElem?_eq_getElem h2, Option.getD_some]
    simp [List.getElem_map]

/-- C1: for every non-empty track list, every position in the payload
createSpherePayload emits has Euclidean magnitude within 1e-6 of 1. -/
theorem createSpherePayload_positions_unit (rawTracks : List RawTrack)
    (featureMap : String → Option TrackAudioFeatures) (now : String)
    (hne : rawTracks ≠ []) (i : ℕ)
    (hi : i < (createSpherePayload rawTracks featureMap now).tracks.length) :
    |magnitude3 (((createSpherePayload rawTracks featureMap now).tracks.get ⟨i, hi⟩).position) - 1|
      ≤ 1e-6 := by
  have hall : ∀ p ∈ (createSpherePayload rawTracks featureMap now).tracks.map SphereTrack.position,
      magnitude3 p = 1 := by
    intro p hp
    rw [createSpherePayload_tracks rawTracks featureMap now hne,
      payloadTracks_positions rawTracks featureMap] at hp
    obtain ⟨item, -, hf⟩ := List.mem_map.1 hp
    rw [← hf]
    exact simplePosition_unit _
  have hone : magnitude3 (((createSpherePayload rawTracks featureMap now).tracks.get ⟨i, hi⟩).position) = 1 :=
    hall _ (List.mem_map_of_mem _ (List.get_mem _ _ _))
  rw [hone]
  norm_num

/-- Witness for C1 on a one-track library with fallback features. -/
theorem createSpherePayload_positions_unit_witness :
    ∃ h : 0 < (createSpherePayload [wTrackA] (fun _ => none) "ts").tracks.length,
      |magnitude3 (((createSpherePayload [wTrackA] (fun _ => none) "ts").tracks.get ⟨0, h⟩).position) - 1|
        ≤ 1e-6 := by
  have hlen : (createSpherePayload [wTrackA] (fun _ => none) "ts").tracks.length = 1 := rfl
  refine ⟨by omega, ?_⟩
  exact createSpherePayload_positions_unit [wTrackA] (fun _ => none) "ts"
    (by simp) 0 (by omega)

/-! ## C2: the Fibonacci fallback never reaches the payload -/

/-- Sorting a two-element constant list is the identity. -/
lemma sortAsc_pair (c : ℝ) : sortAsc [c, c] = [c, c] := by
  unfold sortAsc
  simp [List.insertionSort, List.orderedInsert]

/-- The interpolated percentile of a constant pair is that constant, for any
interior percentile. -/
lemma percentile_pair (c : ℝ) (p : ℝ) (h0 : 0 < p) (h1 : p < 1) :
    percentile [c, c] p = c := by
  unfold percentile
  have hlen : ([c, c] : List ℝ).length = 2 := rfl
  rw [hlen]
  have hidx : ((2:ℕ) : ℝ) - 1 = 1 := by norm_num
  have hfl : ⌊(((2:ℕ) : ℝ) - 1) * p⌋ = 0 := by
    rw [hidx, one_mul]
    exact Int.floor_eq_zero_iff.mpr ⟨le_of_lt h0, h1⟩
  have hcl : ⌈(((2:ℕ) : ℝ) - 1) * p⌉ = 1 := by
    rw [hidx, one_mul, Int.ceil_eq_iff]
    constructor
    · simpa using h0
    · simpa using le_of_lt h1
  simp only [hfl, hcl]
  norm_num
  ring

/-- Standardizing a constant pair yields the zero pair: the percentile band
degenerates to the constant, clamping is the identity, the mean is the
constant and the zero standard deviation is replaced by 1. -/
lemma standardizeColumn_pair (c : ℝ) : standardizeColumn [c, c] = [0, 0] := by
  simp only [standardizeColumn]
  rw [sortAsc_pair, percentile_pair c 0.02 (by norm_num) (by norm_num),
    percentile_pair c 0.98 (by norm_num) (by norm_num)]
  simp [clamp]

/-- A dot product against the zero vector is zero. -/
lemma dot_replicate_zero (k : ℕ) (b : List ℝ) : dot (List.replicate k 0) b = 0 := by
  induction k generalizing b with
  | zero => simp [dot]
  | succ n ih =>
    cases b with
    | nil => simp [dot]
    | cons x t =>
      simp only [dot, List.replicate_succ, List.zipWith_cons_cons, List.sum_cons, zero_mul, zero_add]
      exact ih t

/-- The magnitude of a zero vector is zero. -/
lemma magnitude_replicate_zero (k : ℕ) : magnitude (List.replicate k 0) = 0 := by
  unfold magnitude
  rw [dot_replicate_zero, Real.sqrt_zero]

/-- The feature matrix of two identical feature records is the zero matrix:
every column is a constant pair and standardizes to zeros. -/
lemma buildFeatureMatrix_halfPair :
    buildFeatureMatrix [halfFeatures, halfFeatures]
      = [List.replicate 8 0, List.replicate 8 0] := by
  unfold buildFeatureMatrix featureColumns FEATURE_KEYS
  simp only [List.map_cons, List.map_nil, standardizeColumn_pair]
  rfl

/-- Projecting the zero matrix yields zero rows, whatever the power-iteration
components were. -/
lemma project_zero_pair (comps : List (List ℝ)) :
    project [List.replicate 8 (0:ℝ), List.replicate 8 0] comps
      = [List.replicate (transpose comps).length 0, List.replicate (transpose comps).length 0] := by
  unfold project
  simp only [List.map_cons, List.map_nil]
  congr 1
  · rw [List.map_congr_left (fun comp _ => dot_replicate_zero 8 comp)]
    exact List.map_const' _ 0
  congr 1
  · rw [List.map_congr_left (fun comp _ => dot_replicate_zero 8 comp)]
    exact List.map_const' _ 0

/-- ensureVisiblePositions maps a fully collapsed pair of raw positions to
the two Fibonacci-sphere fallback points. -/
lemma ensureVisible_collapsed_pair (k : ℕ) :
    ensureVisiblePositions [List.replicate k 0, List.replicate k 0]
      = [fibonacciSpherePoint 0 2, fibonacciSpherePoint 1 2] := by
  unfold ensureVisiblePositions
  have hm : magnitude (List.replicate k (0:ℝ)) < 1e-6 := by
    rw [magnitude_replicate_zero]
    norm_num
  simp only [List.countP_cons, List.countP_nil, hm, List.length_cons, List.length_nil]
  norm_num
  rw [show List.range 2 = [0, 1] from rfl]
  rfl

/-- The concrete positions createSpherePayload emits for the collapsed
library: both tracks share halfFeatures, so both land at (0, 0, 1). -/
lemma simplePosition_half : simplePositionFromEnergyValence halfFeatures = ⟨0, 0, 1⟩ := by
  unfold simplePositionFromEnergyValence halfFeatures
  norm_num

/-- The z-coordinate of the first of two Fibonacci fallback points is 1/2. -/
lemma fibonacciSpherePoint_z_half : (fibonacciSpherePoint 0 2).z = 1/2 := by
  show Real.cos (Real.arccos (1 - 2 * ((0:ℕ) + 0.5) / ((max 2 1 : ℕ) : ℝ))) = 1/2
  have harg : 1 - 2 * (((0:ℕ) : ℝ) + 0.5) / ((max 2 1 : ℕ) : ℝ) = 1/2 := by
    norm_num
  rw [harg, Real.cos_arccos (by norm_num) (by norm_num)]

/-- C2 evidence: for the two-track library whose feature map returns the same
record for both tracks, the standardized matrix is zero, hence (for any
power-iteration components) every PCA-projected raw position is the zero
vector, i.e. 100 percent of the tracks are collapsed below 1e-6 and
ensureVisiblePositions would place every track on a Fibonacci fallback
point; yet the payload createSpherePayload actually emits places both tracks
at (0, 0, 1), which is not the Fibonacci point (its z is 1/2): the payload
never consults ensureVisiblePositions or the PCA pipeline. -/
theorem createSpherePayload_ignores_fallback :
    buildFeatureMatrix [halfFeatures, halfFeatures] = [List.replicate 8 0, List.replicate 8 0]
    ∧ (∀ comps, project (buildFeatureMatrix [halfFeatures, halfFeatures]) comps
        = [List.replicate (transpose comps).length 0, List.replicate (transpose comps).length 0])
    ∧ (∀ k, magnitude (List.replicate k 0) < 1e-6)
    ∧ (∀ k, ensureVisiblePositions [List.replicate k 0, List.replicate k 0]
        = [fibonacciSpherePoint 0 2, fibonacciSpherePoint 1 2])
    ∧ (createSpherePayload [wTrackA, wTrackC] constHalfMap "ts").tracks.map SphereTrack.position
        = [⟨0, 0, 1⟩, ⟨0, 0, 1⟩]
    ∧ (fibonacciSpherePoint 0 2).z = 1/2
    ∧ Vec3.mk 0 0 1 ≠ fibonacciSpherePoint 0 2 := by
  refine ⟨buildFeatureMatrix_halfPair, ?_, ?_, ensureVisible_collapsed_pair, ?_, fibonacciSpherePoint_z_half, ?_⟩
  · intro comps
    rw [buildFeatureMatrix_halfPair]
    exact project_zero_pair comps
  · intro k
    rw [magnitude_replicate_zero]
    norm_num
  · rw [createSpherePayload_tracks [wTrackA, wTrackC] constHalfMap "ts" (by simp),
      payloadTracks_positions]
    have hmerged : mergedOf [wTrackA, wTrackC] constHalfMap
        = [(wTrackA, halfFeatures), (wTrackC, halfFeatures)] := by
      simp [mergedOf, constHalfMap]
    rw [hmerged]
    simp [simplePosition_half]
  · intro h
    have hz := fibonacciSpherePoint_z_half
    rw [← h] at hz
    norm_num at hz

/-! ## C5: deduplicating merge, recency wins -/

/-- The keys of `mset`: unchanged when the key exists, appended otherwise. -/
lemma mset_keys (m : List (String × α)) (k : String) (v : α) :
    (mset m k v).map Prod.fst
      = if k ∈ m.map Prod.fst then m.map Prod.fst else m.map Prod.fst ++ [k] := by
  unfold mset
  by_cases h : k ∈ m.map Prod.fst
  · rw [if_pos h, if_pos h, List.map_map]
    apply List.map_congr_left
    intro p _
    by_cases hp : p.1 = k
    · simp [hp]
    · simp [hp]
  · rw [if_neg h, if_neg h]
    simp

/-- `mset` keeps the key set duplicate-free. -/
lemma mset_keys_nodup {m : List (String × α)} (k : String) (v : α)
    (h : (m.map Prod.fst).Nodup) : ((mset m k v).map Prod.fst).Nodup := by
  rw [mset_keys]
  by_cases hc : k ∈ m.map Prod.fst
  · rw [if_pos hc]
    exact h
  · rw [if_neg hc]
    simp [List.nodup_append, h, hc]

/-- The written key is among the keys of `mset`. -/
lemma mset_key_mem (m : List (String × α)) (k : String) (v : α) :
    k ∈ (mset m k v).map Prod.fst := by
  rw [mset_keys]
  by_cases hc : k ∈ m.map Prod.fst
  · rw [if_pos hc]
    exact hc
  · rw [if_neg hc]
    simp

/-- Existing keys survive `mset`. -/
lemma mset_key_mono (m : List (String × α)) (k k0 : String) (v : α)
    (h : k0 ∈ m.map Prod.fst) : k0 ∈ (mset m k v).map Prod.fst := by
  rw [mset_keys]
  by_cases hc : k ∈ m.map Prod.fst
  · rw [if_pos hc]
    exact h
  · rw [if_neg hc]
    exact List.mem_append_left _ h

/-- A pairwise property closed under the written pair is preserved by `mset`. -/
lemma mset_preserves (P : String × α → Prop) (m : List (String × α)) (k : String) (v : α)
    (hP : ∀ p ∈ m, P p) (hv : P (k, v)) : ∀ p ∈ mset m k v, P p := by
  unfold mset
  by_cases h : k ∈ m.map Prod.fst
  · rw [if_pos h]
    intro p hp
    obtain ⟨q, hq, hqe⟩ := List.mem_map.1 hp
    by_cases hqk : q.1 = k
    · rw [← hqe]
      simpa [hqk] using hv
    · rw [← hqe]
      simpa [hqk] using hP q hq
  · rw [if_neg h]
    intro p hp
    rcases List.mem_append.1 hp with hp | hp
    · exact hP p hp
    · simp only [List.mem_singleton] at hp
      rw [hp]
      exact hv

/-- Looking up the key written by the in-place update finds the new value. -/
lemma mlookup_map_update (m : List (String × α)) (k : String) (v : α)
    (h : k ∈ m.map Prod.fst) :
    mlookup k (m.map (fun p => if p.1 = k then (k, v) else p)) = some v := by
  induction m with
  | nil => simp at h
  | cons p t ih =>
    by_cases hp : p.1 = k
    · simp only [List.map_cons, hp, if_pos rfl]
      show (if k = k then some v else _) = some v
      rw [if_pos rfl]
    · have ht : k ∈ t.map Prod.fst := by
        simp only [List.map_cons, List.mem_cons] at h
        rcases h with h | h
        · exact absurd h.symm hp
        · exact h
      simp only [List.map_cons, if_neg hp]
      show (if p.1 = k then some p.2 else mlookup k (t.map _)) = some v
      rw [if_neg hp]
      exact ih ht

/-- Lookup of an absent key walks past a prefix. -/
lemma mlookup_append_of_not_mem (m l : List (String × α)) (k : String)
    (h : k ∉ m.map Prod.fst) : mlookup k (m ++ l) = mlookup k l := by
  induction m with
  | nil => simp
  | cons p t ih =>
    simp only [List.map_cons, List.mem_cons, not_or] at h
    show (if p.1 = k then some p.2 else mlookup k (t ++ l)) = mlookup k l
    rw [if_neg (fun he => h.1 he.symm)]
    exact ih h.2

/-- `mset` writes its value: looking the key up afterwards yields it. -/
lemma mlookup_mset_self (m : List (String × α)) (k : String) (v : α) :
    mlookup k (mset m k v) = some v := by
  unfold mset
  by_cases h : k ∈ m.map Prod.fst
  · rw [if_pos h]
    exact mlookup_map_update m k v h
  · rw [if_neg h, mlookup_append_of_not_mem m _ k h]
    show (if k = k then some v else none) = some v
    rw [if_pos rfl]

/-- Lookup distributes over append as first-match. -/
lemma mlookup_append (m l : List (String × α)) (k : String) :
    mlookup k (m ++ l) = match mlookup k m with
      | some v => some v
      | none => mlookup k l := by
  induction m with
  | nil => simp [mlookup]
  | cons p t ih =>
    by_cases hp : p.1 = k
    · show (if p.1 = k then some p.2 else _) = _
      rw [if_pos hp]
      show _ = (match if p.1 = k then some p.2 else mlookup k t with
        | some v => some v
        | none => mlookup k l)
      rw [if_pos hp]
    · show (if p.1 = k then some p.2 else mlookup k (t ++ l)) = _
      rw [if_neg hp, ih]
      show _ = (match if p.1 = k then some p.2 else mlookup k t with
        | some v => some v
        | none => mlookup k l)
      rw [if_neg hp]

/-- An in-place update of another key leaves a lookup unchanged. -/
lemma mlookup_map_update_other (m : List (String × α)) (k k' : String) (v : α)
    (hne : k' ≠ k) :
    mlookup k' (m.map (fun p => if p.1 = k then (k, v) else p)) = mlookup k' m := by
  induction m with
  | nil => rfl
  | cons p t ih =>
    by_cases hp : p.1 = k
    · simp only [List.map_cons, if_pos hp]
      show (if k = k' then some v else mlookup k' (t.map _))
        = (if p.1 = k' then some p.2 else mlookup k' t)
      rw [if_neg (fun he => hne he.symm),
        if_neg (by rw [hp]; exact fun he => hne he.symm), ih]
    · simp only [List.map_cons, if_neg hp]
      show (if p.1 = k' then some p.2 else mlookup k' (t.map _))
        = (if p.1 = k' then some p.2 else mlookup k' t)
      by_cases hpk : p.1 = k'
      · rw [if_pos hpk, if_pos hpk]
      · rw [if_neg hpk, if_neg hpk, ih]

/-- `mset` of another key leaves a lookup unchanged. -/
lemma mlookup_mset_other (m : List (String × α)) (k k' : String) (v : α)
    (hne : k' ≠ k) : mlookup k' (mset m k v) = mlookup k' m := by
  unfold mset
  by_cases h : k ∈ m.map Prod.fst
  · rw [if_pos h]
    exact mlookup_map_update_other m k k' v hne
  · rw [if_neg h, mlookup_append]
    cases hm : mlookup k' m with
    | some v0 => rfl
    | none =>
      show mlookup k' [(k, v)] = none
      show (if k = k' then some v else none) = none
      rw [if_neg (fun he => hne he.symm)]

/-- A successful lookup exhibits its pair in the list. -/
lemma mlookup_mem (m : List (String × α)) (k : String) (v : α)
    (h : mlookup k m = some v) : (k, v) ∈ m := by
  induction m with
  | nil => simp [mlookup] at h
  | cons p t ih =>
    by_cases hp : p.1 = k
    · have : (if p.1 = k then some p.2 else mlookup k t) = some v := h
      rw [if_pos hp] at this
      have hv : p.2 = v := by injection this
      have hpe : (k, v) = p := by
        rw [← hp, ← hv]
      rw [hpe]
      exact List.mem_cons_self _ _
    · have : (if p.1 = k then some p.2 else mlookup k t) = some v := h
      rw [if_neg hp] at this
      exact List.mem_cons_of_mem _ (ih this)

/-- Keys already present survive a whole source pass. -/
lemma insertObjs_key_mono (l : List TrackObj) (m : List (String × RawTrack)) (k0 : String)
    (h : k0 ∈ m.map Prod.fst) : k0 ∈ (insertObjs m l).map Prod.fst := by
  induction l generalizing m with
  | nil => exact h
  | cons t ts ih =>
    show k0 ∈ (insertObjs (match toRawTrack t with
      | none => m
      | some raw => mset m raw.id raw) ts).map Prod.fst
    cases ht : toRawTrack t with
    | none => exact ih m h
    | some raw => exact ih _ (mset_key_mono m raw.id k0 raw h)

/-- Every id a source contributes ends up among the map keys. -/
lemma insertObjs_key_of_source (l : List TrackObj) (m : List (String × RawTrack)) (tid : String)
    (h : tid ∈ rawIds l) : tid ∈ (insertObjs m l).map Prod.fst := by
  induction l generalizing m with
  | nil => simp [rawIds] at h
  | cons t ts ih =>
    show tid ∈ (insertObjs (match toRawTrack t with
      | none => m
      | some raw => mset m raw.id raw) ts).map Prod.fst
    cases ht : toRawTrack t with
    | none =>
      apply ih
      simpa [rawIds, List.filterMap_cons, ht] using h
    | some raw =>
      by_cases hid : tid = raw.id
      · rw [hid]
        exact insertObjs_key_mono ts _ raw.id (mset_key_mem m raw.id raw)
      · apply ih
        have : rawIds (t :: ts) = raw.id :: rawIds ts := by
          simp [rawIds, List.filterMap_cons, ht]
        rw [this] at h
        rcases List.mem_cons.1 h with h | h
        · exact absurd h hid
        · exact h

/-- A source pass keeps the key set duplicate-free. -/
lemma insertObjs_keys_nodup (l : List TrackObj) (m : List (String × RawTrack))
    (h : (m.map Prod.fst).Nodup) : ((insertObjs m l).map Prod.fst).Nodup := by
  induction l generalizing m with
  | nil => exact h
  | cons t ts ih =>
    show ((insertObjs (match toRawTrack t with
      | none => m
      | some raw => mset m raw.id raw) ts).map Prod.fst).Nodup
    cases toRawTrack t with
    | none => exact ih m h
    | some raw => exact ih _ (mset_keys_nodup raw.id raw h)

/-- A pairwise property closed under written pairs survives a source pass. -/
lemma insertObjs_preserves (P : String × RawTrack → Prop) (l : List TrackObj)
    (m : List (String × RawTrack)) (hP : ∀ p ∈ m, P p)
    (hstep : ∀ raw : RawTrack, P (raw.id, raw)) :
    ∀ p ∈ insertObjs m l, P p := by
  induction l generalizing m with
  | nil => exact hP
  | cons t ts ih =>
    intro p hp
    revert hp
    show p ∈ insertObjs (match toRawTrack t with
      | none => m
      | some raw => mset m raw.id raw) ts → P p
    cases toRawTrack t with
    | none => exact fun hp => ih m hP p hp
    | some raw =>
      exact fun hp => ih _ (mset_preserves P m raw.id raw hP (hstep raw)) p hp

/-- The folded last-write accumulator only matters when no later item
matches. -/
lemma lastWrite_acc (tid : String) (ts : List TrackObj) (acc : Option RawTrack) :
    ts.foldl (fun acc t => match toRawTrack t with
      | some raw => if raw.id = tid then some raw else acc
      | none => acc) acc
    = match ts.foldl (fun acc t => match toRawTrack t with
        | some raw => if raw.id = tid then some raw else acc
        | none => acc) none with
      | some x => some x
      | none => acc := by
  induction ts generalizing acc with
  | nil => simp
  | cons t ts ih =>
    simp only [List.foldl_cons]
    rw [ih]
    conv_rhs => rw [ih]
    cases hf : ts.foldl (fun acc t => match toRawTrack t with
      | some raw => if raw.id = tid then some raw else acc
      | none => acc) none with
    | some x => rfl
    | none =>
      cases ht : toRawTrack t with
      | none => rfl
      | some raw =>
        by_cases hid : raw.id = tid
        · simp [hid]
        · simp [hid]

/-- After a source pass, looking a key up yields the source's last write for
it, falling back to the previous map when the source never wrote it. -/
lemma insertObjs_mlookup (tid : String) (l : List TrackObj) :
    ∀ m, mlookup tid (insertObjs m l)
      = match lastWrite tid l with
        | some r => some r
        | none => mlookup tid m := by
  induction l with
  | nil =>
    intro m
    rfl
  | cons t ts ih =>
    intro m
    show mlookup tid (insertObjs (match toRawTrack t with
      | none => m
      | some raw => mset m raw.id raw) ts)
      = match lastWrite tid (t :: ts) with
        | some r => some r
        | none => mlookup tid m
    have hlw : lastWrite tid (t :: ts)
        = match lastWrite tid ts with
          | some x => some x
          | none => match toRawTrack t with
            | some raw => if raw.id = tid then some raw else none
            | none => none := by
      show (t :: ts).foldl _ none = _
      rw [List.foldl_cons, lastWrite_acc]
      rfl
    cases ht : toRawTrack t with
    | none =>
      rw [ih m, hlw, ht]
      cases lastWrite tid ts with
      | some x => rfl
      | none => rfl
    | some raw =>
      by_cases hid : raw.id = tid
      · rw [ih (mset m raw.id raw), hlw, ht]
        cases lastWrite tid ts with
        | some x => rfl
        | none =>
          show mlookup tid (mset m raw.id raw)
            = match (if raw.id = tid then some raw else none) with
              | some r => some r
              | none => mlookup tid m
          rw [if_pos hid]
          show mlookup tid (mset m raw.id raw) = some raw
          rw [← hid]
          exact mlookup_mset_self m raw.id raw
      · rw [ih (mset m raw.id raw), hlw, ht]
        cases lastWrite tid ts with
        | some x => rfl
        | none =>
          show mlookup tid (mset m raw.id raw)
            = match (if raw.id = tid then some raw else none) with
              | some r => some r
              | none => mlookup tid m
          rw [if_neg hid]
          show mlookup tid (mset m raw.id raw) = mlookup tid m
          exact mlookup_mset_other m raw.id tid raw (fun he => hid he.symm)

/-- Accumulator form of lastWrite membership: a produced record either comes
from the source with the looked-up id, or is the starting accumulator. -/
lemma lastWrite_aux_mem (tid : String) (l : List TrackObj) :
    ∀ acc r, l.foldl (fun acc t => match toRawTrack t with
      | some raw => if raw.id = tid then some raw else acc
      | none => acc) acc = some r →
      (r ∈ l.filterMap toRawTrack ∧ r.id = tid) ∨ acc = some r := by
  induction l with
  | nil =>
    intro acc r h0
    exact Or.inr h0
  | cons t ts ih =>
    intro acc r h0
    rw [List.foldl_cons] at h0
    rcases ih _ r h0 with hl | hacc
    · left
      refine ⟨?_, hl.2⟩
      cases ht : toRawTrack t <;> simp [List.filterMap_cons, ht, hl.1]
    · cases ht : toRawTrack t with
      | none =>
        rw [ht] at hacc
        exact Or.inr hacc
      | some raw =>
        rw [ht] at hacc
        have hacc2 : (if raw.id = tid then some raw else acc) = some r := hacc
        by_cases hid : raw.id = tid
        · rw [if_pos hid] at hacc2
          have hre : raw = r := by injection hacc2
          left
          constructor
          · rw [← hre]
            simp [List.filterMap_cons, ht]
          · rw [← hre, hid]
        · rw [if_neg hid] at hacc2
          exact Or.inr hacc2

/-- A last write comes from the source and carries the looked-up id. -/
lemma lastWrite_mem (tid : String) (l : List TrackObj) (r : RawTrack)
    (h : lastWrite tid l = some r) : r ∈ l.filterMap toRawTrack ∧ r.id = tid := by
  rcases lastWrite_aux_mem tid l none r h with hl | habs
  · exact hl
  · cases habs

/-- A source containing the id has a last write for it. -/
lemma lastWrite_isSome (tid : String) (l : List TrackObj)
    (h : tid ∈ rawIds l) : ∃ r, lastWrite tid l = some r := by
  induction l with
  | nil => simp [rawIds] at h
  | cons t ts ih =>
    have hlw : lastWrite tid (t :: ts)
        = match lastWrite tid ts with
          | some x => some x
          | none => match toRawTrack t with
            | some raw => if raw.id = tid then some raw else none
            | none => none := by
      show (t :: ts).foldl _ none = _
      rw [List.foldl_cons, lastWrite_acc]
      rfl
    cases ht : toRawTrack t with
    | none =>
      have h2 : tid ∈ rawIds ts := by
        simpa [rawIds, List.filterMap_cons, ht] using h
      obtain ⟨r, hr⟩ := ih h2
      exact ⟨r, by rw [hlw, hr]⟩
    | some raw =>
      have : rawIds (t :: ts) = raw.id :: rawIds ts := by
        simp [rawIds, List.filterMap_cons, ht]
      rw [this] at h
      cases hlast : lastWrite tid ts with
      | some x => exact ⟨x, by rw [hlw, hlast]⟩
      | none =>
        rcases List.mem_cons.1 h with h | h
        · refine ⟨raw, ?_⟩
          rw [hlw, hlast, ht]
          show (if raw.id = tid then some raw else none) = some raw
          rw [if_pos h.symm]
        · obtain ⟨r, hr⟩ := ih h
          rw [hr] at hlast
          cases hlast

/-- C5 as amended: when an id appears in both the liked and the
recently-played sources, the merged fetchUserTracks output lists it at most
once; the map entry for it is the recently-played source's last write (so
recency wins over liked); and when the merged map fits within `limit` (no
truncation loss) the output lists the id exactly once and contains that
recently-played record. -/
theorem fetchUserTracks_dedup_recent_wins (liked recent : List TrackObj) (limit : ℕ)
    (tid : String) (h1 : tid ∈ rawIds liked) (h2 : tid ∈ rawIds recent) :
    ((fetchUserTracksMerged liked recent [] limit).map RawTrack.id).count tid ≤ 1
    ∧ ∃ r, lastWrite tid recent = some r
        ∧ r ∈ recent.filterMap toRawTrack
        ∧ r.id = tid
        ∧ mlookup tid (mergeMap liked recent []) = some r
        ∧ ((mergeMap liked recent []).length ≤ limit →
            ((fetchUserTracksMerged liked recent [] limit).map RawTrack.id).count tid = 1
            ∧ r ∈ fetchUserTracksMerged liked recent [] limit) := by
  have hmm : mergeMap liked recent [] = insertObjs (insertObjs [] liked) recent := rfl
  have hnodup : ((mergeMap liked recent []).map Prod.fst).Nodup := by
    rw [hmm]
    exact insertObjs_keys_nodup recent _ (insertObjs_keys_nodup liked [] (by simp))
  have hinv : ∀ p ∈ mergeMap liked recent [], p.2.id = p.1 := by
    rw [hmm]
    exact insertObjs_preserves _ recent _
      (insertObjs_preserves _ liked [] (by simp) (fun raw => rfl)) (fun raw => rfl)
  have hids : (fetchUserTracksMerged liked recent [] limit).map RawTrack.id
      = ((mergeMap liked recent []).map Prod.fst).take limit := by
    unfold fetchUserTracksMerged
    rw [← List.map_take, List.map_map]
    rw [List.map_take]
    congr 1
    rw [List.map_congr_left]
    intro p hp
    exact hinv p hp
  have hkeymem : tid ∈ (mergeMap liked recent []).map Prod.fst := by
    rw [hmm]
    exact insertObjs_key_of_source recent _ tid h2
  constructor
  · rw [hids]
    calc (((mergeMap liked recent []).map Prod.fst).take limit).count tid
        ≤ ((mergeMap liked recent []).map Prod.fst).count tid :=
          (List.take_sublist _ _).count_le tid
      _ ≤ 1 := List.nodup_iff_count_le_one.mp hnodup tid
  · obtain ⟨r, hr⟩ := lastWrite_isSome tid recent h2
    obtain ⟨hrmem, hrid⟩ := lastWrite_mem tid recent r hr
    have hlook : mlookup tid (mergeMap liked recent []) = some r := by
      rw [hmm, insertObjs_mlookup tid recent, hr]
    refine ⟨r, hr, hrmem, hrid, hlook, ?_⟩
    intro hlen
    have htake : ((mergeMap liked recent []).map Prod.snd).take limit
        = (mergeMap liked recent []).map Prod.snd := by
      apply List.take_all_of_le
      simpa using hlen
    constructor
    · rw [hids]
      have htake2 : ((mergeMap liked recent []).map Prod.fst).take limit
          = (mergeMap liked recent []).map Prod.fst := by
        apply List.take_all_of_le
        simpa using hlen
      rw [htake2]
      exact List.count_eq_one_of_mem hnodup hkeymem
    · unfold fetchUserTracksMerged
      rw [htake]
      exact List.mem_map.2 ⟨(tid, r), mlookup_mem _ tid r hlook, rfl⟩

/-- C5 counterexample: the id "b" appears in the liked source (second) and in
the recently-played source, yet with limit 1 the merged output is truncated
before it and lists "b" zero times, not exactly once. -/
theorem fetchUserTracks_truncation_drops_id :
    "b" ∈ rawIds [objA, objB]
    ∧ "b" ∈ rawIds [objBRecent]
    ∧ ((fetchUserTracksMerged [objA, objB] [objBRecent] [] 1).map RawTrack.id).count "b" = 0 := by
  decide

/-- Witness for C5 at a two-source library that fits within the limit. -/
theorem fetchUserTracks_dedup_recent_wins_witness :
    ((fetchUserTracksMerged [objB] [objBRecent] [] 20).map RawTrack.id).count "b" ≤ 1 :=
  (fetchUserTracks_dedup_recent_wins [objB] [objBRecent] 20 "b" (by decide) (by decide)).1

/-! ## C8: batched audio-feature fetch -/

/-- Every chunk has at most `size` elements and the chunks concatenate back
to the input (for positive `size`). -/
lemma chunks_props (n : ℕ) : ∀ (l : List α) (size : ℕ), l.length ≤ n → 1 ≤ size →
    (∀ c ∈ chunks l size, c.length ≤ size) ∧ (chunks l size).flatten = l := by
  induction n with
  | zero =>
    intro l size hl hs
    have hnil : l = [] := List.length_eq_zero.mp (Nat.le_zero.mp hl)
    subst hnil
    rw [chunks]
    rw [dif_neg (by omega)]
    exact ⟨by simp, rfl⟩
  | succ n ih =>
    intro l size hl hs
    cases l with
    | nil =>
      rw [chunks]
      rw [dif_neg (by omega)]
      exact ⟨by simp, rfl⟩
    | cons a t =>
      rw [chunks]
      rw [dif_neg (by omega)]
      have hrec := ih ((a :: t).drop size) size
        (by simp only [List.length_drop, List.length_cons] at hl ⊢; omega) hs
      constructor
      · intro c hc
        rcases List.mem_cons.1 hc with hc | hc
        · rw [hc]
          simp [List.length_take]
        · exact hrec.1 c hc
      · show (a :: t).take size ++ (chunks ((a :: t).drop size) size).flatten = a :: t
        rw [hrec.2, List.take_append_drop]

/-- A 403 on the next chunk returns the accumulated map. -/
lemma goFeatures_403 (api : List String → ApiResult)
    (acc : List (String × TrackAudioFeatures)) (c : List String) (cs : List (List String))
    (h : api c = .http403) : goFeatures api acc (c :: cs) = .ok acc := by
  show (match api c with
    | .ok feats => goFeatures api (feats.foldl insertFeature acc) cs
    | .http403 => Except.ok acc
    | .httpErr => Except.error ()) = .ok acc
  rw [h]

/-- A successful chunk folds its features in and continues. -/
lemma goFeatures_ok (api : List String → ApiResult)
    (acc : List (String × TrackAudioFeatures)) (c : List String) (cs : List (List String))
    (feats : List (Option TrackAudioFeatures)) (h : api c = .ok feats) :
    goFeatures api acc (c :: cs) = goFeatures api (feats.foldl insertFeature acc) cs := by
  show (match api c with
    | .ok feats => goFeatures api (feats.foldl insertFeature acc) cs
    | .http403 => Except.ok acc
    | .httpErr => Except.error ()) = _
  rw [h]

/-- The loop only errors when some chunk reports a non-403 failure. -/
lemma goFeatures_no_error (api : List String → ApiResult) :
    ∀ (cs : List (List String)) (acc : List (String × TrackAudioFeatures)),
    (∀ c ∈ cs, api c ≠ .httpErr) → ∃ m, goFeatures api acc cs = .ok m := by
  intro cs
  induction cs with
  | nil => exact fun acc _ => ⟨acc, rfl⟩
  | cons c cs ih =>
    intro acc h
    cases hc : api c with
    | ok feats =>
      obtain ⟨m, hm⟩ := ih (feats.foldl insertFeature acc) (fun d hd => h d (List.mem_cons_of_mem _ hd))
      exact ⟨m, by rw [goFeatures_ok api acc c cs feats hc, hm]⟩
    | http403 => exact ⟨acc, goFeatures_403 api acc c cs hc⟩
    | httpErr => exact absurd hc (h c (List.mem_cons_self _ _))

/-- Inserting a feature record that does not carry id `tid` leaves a failed
lookup of `tid` failed. -/
lemma insertFeature_lookup_none (tid : String) (acc : List (String × TrackAudioFeatures))
    (f : Option TrackAudioFeatures) (hnone : mlookup tid acc = none)
    (hf : ∀ x, f = some x → x.id ≠ tid) :
    mlookup tid (insertFeature acc f) = none := by
  cases f with
  | none => exact hnone
  | some x =>
    show mlookup tid (if x.id = "" then acc else mset acc x.id x) = none
    by_cases hx : x.id = ""
    · rw [if_pos hx]
      exact hnone
    · rw [if_neg hx, mlookup_mset_other acc x.id tid x (fun he => hf x rfl he.symm)]
      exact hnone

/-- A whole fold of feature records missing id `tid` leaves its lookup
failed. -/
lemma foldl_insertFeature_lookup_none (tid : String)
    (feats : List (Option TrackAudioFeatures)) :
    ∀ acc, mlookup tid acc = none → (∀ x, some x ∈ feats → x.id ≠ tid) →
    mlookup tid (feats.foldl insertFeature acc) = none := by
  induction feats with
  | nil => exact fun acc h _ => h
  | cons f fs ih =>
    intro acc h hfs
    rw [List.foldl_cons]
    apply ih
    · exact insertFeature_lookup_none tid acc f h
        (fun x hx => hfs x (hx ▸ List.mem_cons_self _ _))
    · exact fun x hx => hfs x (List.mem_cons_of_mem _ hx)

/-- If no chunk ever returns a feature with id `tid`, the final map has no
entry for it. -/
lemma goFeatures_lookup_none (api : List String → ApiResult) (tid : String) :
    ∀ (cs : List (List String)) (acc : List (String × TrackAudioFeatures)) (m : List (String × TrackAudioFeatures)),
    mlookup tid acc = none →
    (∀ c feats, api c = .ok feats → ∀ x : TrackAudioFeatures, some x ∈ feats → x.id ≠ tid) →
    goFeatures api acc cs = .ok m → mlookup tid m = none := by
  intro cs
  induction cs with
  | nil =>
    intro acc m hacc _ hrun
    have : acc = m := by injection hrun
    rw [← this]
    exact hacc
  | cons c cs ih =>
    intro acc m hacc hmiss hrun
    cases hc : api c with
    | ok feats =>
      rw [goFeatures_ok api acc c cs feats hc] at hrun
      exact ih _ m (foldl_insertFeature_lookup_none tid feats acc hacc
        (fun x hx => hmiss c feats hc x hx)) hmiss hrun
    | http403 =>
      rw [goFeatures_403 api acc c cs hc] at hrun
      have : acc = m := by injection hrun
      rw [← this]
      exact hacc
    | httpErr =>
      rw [show goFeatures api acc (c :: cs) = .error () from by
        show (match api c with
          | .ok feats => goFeatures api (feats.foldl insertFeature acc) cs
          | .http403 => Except.ok acc
          | .httpErr => Except.error ()) = _
        rw [hc]] at hrun
      cases hrun

/-- C8: fetchAudioFeatures partitions its ids into chunks of at most 100
which concatenate back to the input, runs the accumulating loop over them
from the empty map, stops with the accumulated map on a 403, folds
successful chunks in sequentially, never errors unless a chunk reports a
non-403 failure, and ids no returned feature carries are simply absent from
the final map. -/
theorem fetchAudioFeatures_spec (ids : List String) (api : List String → ApiResult) :
    (∀ c ∈ chunks ids 100, c.length ≤ 100)
    ∧ (chunks ids 100).flatten = ids
    ∧ fetchAudioFeatures ids api = goFeatures api [] (chunks ids 100)
    ∧ (∀ acc c cs, api c = .http403 → goFeatures api acc (c :: cs) = .ok acc)
    ∧ (∀ acc c cs feats, api c = .ok feats →
        goFeatures api acc (c :: cs) = goFeatures api (feats.foldl insertFeature acc) cs)
    ∧ ((∀ c ∈ chunks ids 100, api c ≠ .httpErr) → ∃ m, fetchAudioFeatures ids api = .ok m)
    ∧ (∀ tid m, fetchAudioFeatures ids api = .ok m →
        (∀ c feats, api c = .ok feats → ∀ x : TrackAudioFeatures, some x ∈ feats → x.id ≠ tid) →
        mlookup tid m = none) := by
  have hchunks := chunks_props ids.length ids 100 (le_refl _) (by omega)
  refine ⟨hchunks.1, hchunks.2, rfl, goFeatures_403 api, goFeatures_ok api, ?_, ?_⟩
  · intro h
    exact goFeatures_no_error api (chunks ids 100) [] h
  · intro tid m hrun hmiss
    exact goFeatures_lookup_none api tid (chunks ids 100) [] m rfl hmiss hrun

/-- Witness for C8: an oracle that always answers 403 yields a successful,
possibly empty, result. -/
theorem fetchAudioFeatures_spec_witness :
    ∃ m, fetchAudioFeatures ["x"] (fun _ => ApiResult.http403) = .ok m :=
  (fetchAudioFeatures_spec ["x"] (fun _ => ApiResult.http403)).2.2.2.2.2.1
    (by intro c _ h; cases h)

/-! ## C7: percentile clamping and zero-variance standardization -/

/-- getD at an in-range index is the indexed element. -/
lemma getD_of_lt (l : List ℝ) (i : ℕ) (d : ℝ) (h : i < l.length) : l.getD i d = l[i] := by
  rw [List.getD_eq_getElem?_getD, List.getElem?_eq_getElem h, Option.getD_some]

/-- In a sorted list, getD is monotone over in-range indices. -/
lemma sorted_getD_mono (l : List ℝ) (hs : l.Sorted (· ≤ ·)) (i j : ℕ)
    (hij : i ≤ j) (hj : j < l.length) : l.getD i 0 ≤ l.getD j 0 := by
  have hi : i < l.length := lt_of_le_of_lt hij hj
  rw [getD_of_lt _ _ _ hi, getD_of_lt _ _ _ hj]
  exact @List.Sorted.rel_get_of_le ℝ (· ≤ ·) _ l hs ⟨i, hi⟩ ⟨j, hj⟩ hij

/-- percentile on a non-empty list, written out. -/
lemma percentile_eval (s : List ℝ) (p : ℝ) (hne : ¬ s.length = 0) :
    percentile s p = (if ⌊((s.length:ℝ) - 1) * p⌋ = ⌈((s.length:ℝ) - 1) * p⌉
      then s.getD (⌊((s.length:ℝ) - 1) * p⌋).toNat 0
      else s.getD (⌊((s.length:ℝ) - 1) * p⌋).toNat 0
            * (1 - (((s.length:ℝ) - 1) * p - (⌊((s.length:ℝ) - 1) * p⌋ : ℤ)))
          + s.getD (⌈((s.length:ℝ) - 1) * p⌉).toNat 0
            * (((s.length:ℝ) - 1) * p - (⌊((s.length:ℝ) - 1) * p⌋ : ℤ))) := by
  unfold percentile
  rw [if_neg hne]

/-- The interpolated value lies between its cell's endpoints. -/
lemma interp_between (s : List ℝ) (hs : s.Sorted (· ≤ ·)) (x : ℝ)
    (h0 : 0 ≤ x) (h1 : x ≤ (s.length : ℝ) - 1) :
    s.getD (⌊x⌋).toNat 0 ≤ (if ⌊x⌋ = ⌈x⌉ then s.getD (⌊x⌋).toNat 0
        else s.getD (⌊x⌋).toNat 0 * (1 - (x - (⌊x⌋ : ℤ)))
          + s.getD (⌈x⌉).toNat 0 * (x - (⌊x⌋ : ℤ)))
    ∧ (if ⌊x⌋ = ⌈x⌉ then s.getD (⌊x⌋).toNat 0
        else s.getD (⌊x⌋).toNat 0 * (1 - (x - (⌊x⌋ : ℤ)))
          + s.getD (⌈x⌉).toNat 0 * (x - (⌊x⌋ : ℤ)))
      ≤ s.getD (⌈x⌉).toNat 0 := by
  by_cases heq : ⌊x⌋ = ⌈x⌉
  · rw [if_pos heq, heq]
    exact ⟨le_refl _, le_refl _⟩
  · rw [if_neg heq]
    have hlen1 : (1:ℝ) ≤ (s.length : ℝ) := by linarith
    have hlenN : 1 ≤ s.length := by exact_mod_cast hlen1
    have hlu : ⌊x⌋ < ⌈x⌉ := lt_of_le_of_ne (Int.floor_le_ceil x) heq
    have hw0 : 0 ≤ x - (⌊x⌋ : ℤ) := by
      have := Int.floor_le x
      linarith
    have hw1 : x - (⌊x⌋ : ℤ) ≤ 1 := by
      have := Int.lt_floor_add_one x
      push_cast at this ⊢
      linarith
    have hfl0 : 0 ≤ ⌊x⌋ := Int.floor_nonneg.mpr h0
    have hceil : ⌈x⌉ ≤ (s.length : ℤ) - 1 := by
      rw [Int.ceil_le]
      push_cast
      linarith
    have hceillt : (⌈x⌉).toNat < s.length := by omega
    have hmono : s.getD (⌊x⌋).toNat 0 ≤ s.getD (⌈x⌉).toNat 0 :=
      sorted_getD_mono s hs _ _ (by omega) hceillt
    constructor <;> nlinarith [hmono, hw0, hw1]

/-- The linear-interpolated percentile is monotone in the percentile rank on
a sorted list. -/
lemma percentile_mono (s : List ℝ) (hs : s.Sorted (· ≤ ·)) (p q : ℝ)
    (hp0 : 0 ≤ p) (hpq : p ≤ q) (hq1 : q ≤ 1) :
    percentile s p ≤ percentile s q := by
  by_cases hne : s.length = 0
  · unfold percentile
    rw [if_pos hne, if_pos hne]
  · have hq0 : 0 ≤ q := le_trans hp0 hpq
    have hp1 : p ≤ 1 := le_trans hpq hq1
    have hlen1 : (1:ℕ) ≤ s.length := Nat.one_le_iff_ne_zero.mpr hne
    have hlenR : (1:ℝ) ≤ (s.length : ℝ) := by exact_mod_cast hlen1
    have hnn : (0:ℝ) ≤ (s.length : ℝ) - 1 := by linarith
    have hx0 : 0 ≤ ((s.length:ℝ) - 1) * p := mul_nonneg hnn hp0
    have hy0 : 0 ≤ ((s.length:ℝ) - 1) * q := mul_nonneg hnn hq0
    have hx1 : ((s.length:ℝ) - 1) * p ≤ (s.length : ℝ) - 1 := by nlinarith
    have hy1 : ((s.length:ℝ) - 1) * q ≤ (s.length : ℝ) - 1 := by nlinarith
    have hxy : ((s.length:ℝ) - 1) * p ≤ ((s.length:ℝ) - 1) * q :=
      mul_le_mul_of_nonneg_left hpq hnn
    rw [percentile_eval s p hne, percentile_eval s q hne]
    set x := ((s.length:ℝ) - 1) * p with hxdef
    set y := ((s.length:ℝ) - 1) * q with hydef
    have hbx := interp_between s hs x hx0 hx1
    have hby := interp_between s hs y hy0 hy1
    by_cases hcase : ⌈x⌉ ≤ ⌊y⌋
    · have hfly : (⌊y⌋).toNat < s.length := by
        have h2 : ⌊y⌋ ≤ (s.length : ℤ) - 1 := by
          have := Int.floor_le y
          have : (⌊y⌋ : ℝ) ≤ (s.length : ℝ) - 1 := by linarith [Int.floor_le y]
          exact_mod_cast this
        have h3 : (1:ℤ) ≤ (s.length : ℤ) := by exact_mod_cast hlen1
        omega
      have hmid : s.getD (⌈x⌉).toNat 0 ≤ s.getD (⌊y⌋).toNat 0 :=
        sorted_getD_mono s hs _ _ (by omega) hfly
      exact le_trans hbx.2 (le_trans hmid hby.1)
    · push_neg at hcase
      have hflmono : ⌊x⌋ ≤ ⌊y⌋ := Int.floor_le_floor hxy
      have hcfx : ⌈x⌉ ≤ ⌊x⌋ + 1 := Int.ceil_le_floor_add_one x
      have heqf : ⌊x⌋ = ⌊y⌋ := by omega
      have hnex : ⌊x⌋ ≠ ⌈x⌉ := by omega
      have hney : ⌊y⌋ ≠ ⌈y⌉ := by
        intro he
        have hyint : y ≤ (⌊y⌋ : ℝ) := by
          have := Int.le_ceil y
          rw [← he] at this
          linarith
        have hxle : x ≤ (⌊x⌋ : ℝ) := by
          rw [heqf]
          linarith
        have : (⌊x⌋ : ℝ) ≤ x := Int.floor_le x
        have hxeq : x = (⌊x⌋ : ℝ) := le_antisymm hxle this
        apply hnex
        rw [hxeq, Int.floor_intCast, Int.ceil_intCast]
      rw [if_neg hnex, if_neg hney]
      have hcy1 : ⌈y⌉ ≤ ⌊y⌋ + 1 := Int.ceil_le_floor_add_one y
      have hfly2 : ⌊y⌋ ≤ ⌈y⌉ := Int.floor_le_ceil y
      have hcx : ⌈x⌉ = ⌊x⌋ + 1 := by omega
      have hcy : ⌈y⌉ = ⌊y⌋ + 1 := by omega
      have hceilb : ⌈y⌉ ≤ (s.length : ℤ) - 1 := by
        rw [Int.ceil_le]
        push_cast
        linarith
      have hcyx : ⌈x⌉ = ⌈y⌉ := by omega
      have hceillt : (⌈x⌉).toNat < s.length := by
        have h3 : (1:ℤ) ≤ (s.length : ℤ) := by exact_mod_cast hlen1
        omega
      have hfl0 : 0 ≤ ⌊x⌋ := Int.floor_nonneg.mpr hx0
      have hmono : s.getD (⌊x⌋).toNat 0 ≤ s.getD (⌈x⌉).toNat 0 :=
        sorted_getD_mono s hs _ _ (by omega) hceillt
      rw [← heqf, ← hcyx]
      have hwxy : x - (⌊x⌋ : ℤ) ≤ y - (⌊x⌋ : ℤ) := by linarith
      nlinarith [hmono, hwxy]

/-- The sort the column builder applies is sorted. -/
lemma sortAsc_sorted (l : List ℝ) : (sortAsc l).Sorted (· ≤ ·) :=
  List.sorted_insertionSort (· ≤ ·) l

/-- Clamping a value below the band pulls it exactly to the lower bound. -/
lemma clamp_of_lt (v lo hi : ℝ) (h : lo ≤ hi) (hv : v < lo) : clamp v lo hi = lo := by
  unfold clamp
  rw [min_eq_right (le_trans hv.le h), max_eq_left hv.le]

/-- Clamping a value above the band pulls it exactly to the upper bound. -/
lemma clamp_of_gt (v lo hi : ℝ) (h : lo ≤ hi) (hv : hi < v) : clamp v lo hi = hi := by
  unfold clamp
  rw [min_eq_left hv.le, max_eq_right h]

/-- Clamping keeps in-band values unchanged. -/
lemma clamp_of_mem (v lo hi : ℝ) (h1 : lo ≤ v) (h2 : v ≤ hi) : clamp v lo hi = v := by
  unfold clamp
  rw [min_eq_right h2, max_eq_right h1]

/-- A column whose clamped values are all equal standardizes to all zeros:
the mean is that value, the variance is zero, and the zero standard
deviation is replaced by 1, never dividing by zero. -/
lemma standardizeColumn_const (values : List ℝ) (c : ℝ)
    (hc : ∀ u ∈ values.map (fun v =>
        clamp v (percentile (sortAsc values) 0.02) (percentile (sortAsc values) 0.98)), u = c) :
    standardizeColumn values = List.replicate values.length 0 := by
  by_cases hval : values = []
  · subst hval
    rfl
  · have hn1 : 1 ≤ values.length := List.length_pos.mpr hval
    have hrep0 := List.eq_replicate_of_mem hc
    rw [List.length_map] at hrep0
    simp only [standardizeColumn]
    rw [hrep0]
    simp only [List.length_replicate]
    rw [Nat.max_eq_left hn1, List.sum_replicate, nsmul_eq_mul]
    have hmean : (values.length : ℝ) * c / (values.length : ℝ) = c := by
      have hnR : ((values.length : ℕ) : ℝ) ≠ 0 := Nat.cast_ne_zero.mpr (by omega)
      field_simp
    rw [hmean]
    rw [List.map_replicate]
    rw [List.map_replicate]
    rw [List.sum_replicate, nsmul_eq_mul]
    have hzero : ((c - c) ^ 2) = 0 := by ring
    rw [hzero, mul_zero, zero_div, Real.sqrt_zero, if_pos rfl]
    congr 1
    norm_num

/-- C7: in the per-column standardization of buildFeatureMatrix, the 2nd
percentile never exceeds the 98th; raw values outside the band are clamped
exactly to the nearer percentile boundary (in-band values pass unchanged);
and a column whose clamped values are all equal standardizes to all zeros
(the zero standard deviation being replaced by 1, so no division by zero
ever occurs). -/
theorem buildFeatureMatrix_standardize_spec (values : List ℝ) :
    percentile (sortAsc values) 0.02 ≤ percentile (sortAsc values) 0.98
    ∧ (∀ v ∈ values,
        (v < percentile (sortAsc values) 0.02 →
          clamp v (percentile (sortAsc values) 0.02) (percentile (sortAsc values) 0.98)
            = percentile (sortAsc values) 0.02)
        ∧ (percentile (sortAsc values) 0.98 < v →
          clamp v (percentile (sortAsc values) 0.02) (percentile (sortAsc values) 0.98)
            = percentile (sortAsc values) 0.98)
        ∧ (percentile (sortAsc values) 0.02 ≤ v → v ≤ percentile (sortAsc values) 0.98 →
          clamp v (percentile (sortAsc values) 0.02) (percentile (sortAsc values) 0.98) = v))
    ∧ (∀ c : ℝ, (∀ u ∈ values.map (fun v =>
          clamp v (percentile (sortAsc values) 0.02) (percentile (sortAsc values) 0.98)), u = c) →
        standardizeColumn values = List.replicate values.length 0) := by
  have hlh : percentile (sortAsc values) 0.02 ≤ percentile (sortAsc values) 0.98 :=
    percentile_mono (sortAsc values) (sortAsc_sorted values) 0.02 0.98
      (by norm_num) (by norm_num) (by norm_num)
  refine ⟨hlh, ?_, fun c hc => standardizeColumn_const values c hc⟩
  intro v _
  exact ⟨clamp_of_lt v _ _ hlh, clamp_of_gt v _ _ hlh, clamp_of_mem v _ _⟩

end Sphere
